import Mathlib

/-!
Shallow embedding of the `publicly` SSH chat-lounge server
(src/main.rs, src/entity.rs, src/authfile.rs, src/lookup.rs,
src/message.rs, src/error.rs).

Rust `HashMap`s are modelled as association lists with unique keys:
`alookup` is `HashMap::get` (first match), `ainsert` is
`HashMap::insert` (replaces any previous binding), `aremove` is
`HashMap::remove`.  `HashSet<KeyData>` is a duplicate-free `List Nat`;
the opaque SSH key material (`KeyData`) is modelled as a `Nat`, and the
SHA-256 fingerprint string of a key is modelled as the injective string
`"SHA256:" ++ digest`, which is faithful to the shape of the real
fingerprint (a prefix `SHA256:` followed by a nonempty, colon-free
digest).  File I/O and channel I/O are external: `reload` takes the
already-parsed result of `authfile::read`, and channel `close` outcomes
are an environment `closeOk : Nat → Bool`.
-/

/-- `HashMap::get`: first binding for the key, if any. -/
def alookup {α : Type} : List (Nat × α) → Nat → Option α
  | [], _ => none
  | (k, v) :: t, j => if k = j then some v else alookup t j

/-- `HashMap::remove`: drop every binding for the key. -/
def aremove {α : Type} : List (Nat × α) → Nat → List (Nat × α)
  | [], _ => []
  | (k, v) :: t, j => if k = j then aremove t j else (k, v) :: aremove t j

/-- `HashMap::insert`: bind the key, replacing any previous binding. -/
def ainsert {α : Type} (l : List (Nat × α)) (k : Nat) (v : α) : List (Nat × α) :=
  (k, v) :: aremove l k

/-- `HashSet::insert` on the key pool. -/
def pinsert (l : List Nat) (k : Nat) : List Nat :=
  if k ∈ l then l else k :: l

/-- `HashSet::remove` on the key pool. -/
def premove (l : List Nat) (k : Nat) : List Nat :=
  l.filter (fun x => decide (x ≠ k))

/-- Role of a persona (src/entity.rs). -/
inductive Role : Type
  | Admin : Role
  | Normal : Role
deriving DecidableEq, Repr

/-- `Display for Role` (src/entity.rs). -/
def Role.text : Role → String
  | .Admin => "admin"
  | .Normal => "normal"

/-- An authorized identity: a mutable persona (name, role) plus the
immutable key material (src/entity.rs).  Each keychain slot owns its
own persona, so persona mutation is modelled as updating the slot. -/
structure Entity : Type where
  name : String
  role : Role
  key : Nat
deriving DecidableEq, Repr

/-- `Entity::fingerprint` (src/entity.rs lines 95-99): the SHA-256
fingerprint string, which carries the `SHA256:` prefix followed by a
nonempty colon-free digest. -/
def Entity.fingerprint (e : Entity) : String :=
  "SHA256:" ++ toString e.key

/-- `Persona::title` (src/entity.rs lines 32-34). -/
def Entity.title (e : Entity) : String :=
  "[" ++ e.name ++ " " ++ e.role.text ++ "]"

/-- `sanitize_name` (src/entity.rs lines 106-116): keep ASCII
alphanumerics and `@`, `_`, `-`, `.`; drop everything else. -/
def sanitize_name (s : String) : String :=
  String.mk (s.data.filter
    (fun c => c.isAlphanum || c == '@' || c == '_' || c == '-' || c == '.'))

/-- `Entity::set_name` (src/entity.rs lines 62-65): the stored name
becomes the sanitized form of the argument. -/
def Entity.set_name (e : Entity) (n : String) : Entity :=
  { e with name := sanitize_name n }

/-- `EntityLookup` (src/lookup.rs): a user reference, by bare name or
by full fingerprint string. -/
inductive EntityLookup : Type
  | Name : String → EntityLookup
  | Sha256 : String → EntityLookup
deriving DecidableEq, Repr

/-- `str::split_once(c)` on a character list: split at the first
occurrence of `c`, if any. -/
def splitOnce (c : Char) : List Char → Option (List Char × List Char)
  | [] => none
  | x :: t =>
    if x = c then some ([], t)
    else (splitOnce c t).map (fun p => (x :: p.1, p.2))

/-- The command-surface error type (src/error.rs), restricted to the
constructors the control plane produces. -/
inductive Error : Type
  | ClientDisconnectFailed : Nat → Error
  | FileNotReadable : Error
  | PublicKeyParsing : Error
  | InvalidRole : String → Error
  | CommandParse : String → Error
  | EntityLookup : String → Error
  | NotAnAdmin : String → Error
  | EntityParsing : Error
  | NoBanSelf : Error
deriving DecidableEq, Repr

/-- `FromStr for EntityLookup` (src/lookup.rs lines 12-21):
`SHA256:<digest>` with a nonempty colon-free digest is a fingerprint
lookup carrying the whole string; a string without `:` is a name
lookup; anything else is an `EntityLookup` error. -/
def EntityLookup.fromStr (s : String) : Except Error EntityLookup :=
  match splitOnce ':' s.data with
  | some (pre, post) =>
    if String.mk pre = "SHA256" ∧ post ≠ [] ∧ ¬ post.contains ':' then
      .ok (.Sha256 s)
    else
      .error (.EntityLookup s)
  | none => .ok (.Name s)

/-- `EntityLookup::matches` (src/lookup.rs lines 25-40): a name lookup
compares against the live persona name, a fingerprint lookup against
`Entity::fingerprint`. -/
def EntityLookup.matches : EntityLookup → Entity → Bool
  | .Name n, e => e.name == n
  | .Sha256 d, e => e.fingerprint == d

/-- First entity of the keychain matched by a lookup, in authfile
order (the scan pattern of `run_command` for `/info` and `/ban`). -/
def firstMatch (lk : EntityLookup) : List Entity → Option Entity
  | [] => none
  | e :: t => if lk.matches e then some e else firstMatch lk t

/-- Chat message (src/message.rs). -/
inductive Message : Type
  | Announce : Bool → String → Role → Message
  | Plain : String → Message
  | Dossier : (contents : String) → (requested_by : Nat) → Message
deriving DecidableEq, Repr

/-- The per-client message filter of `AppServer::render`
(src/main.rs lines 152-164): a `Dossier` whose `requested_by` differs
from the client id is skipped; every other message is kept. -/
def renderVisible (clientId : Nat) (history : List Message) : List Message :=
  history.filter (fun m =>
    match m with
    | .Dossier _ rb => rb == clientId
    | _ => true)

/-- `str::split(char::is_whitespace)` on a character list: split at
every whitespace character, keeping empty segments (so a trailing or
doubled separator yields an empty token, as in Rust). -/
def splitChars (p : Char → Bool) : List Char → List (List Char)
  | [] => [[]]
  | c :: t =>
    let r := splitChars p t
    if p c then [] :: r
    else
      match r with
      | h :: t2 => (c :: h) :: t2
      | [] => [[c]]

/-- Whitespace tokenization of `Command::parse` (src/main.rs line
686). -/
def tokenize (text : String) : List String :=
  (splitChars Char.isWhitespace text.data).map String.mk

/-- The slash-command language (src/main.rs lines 675-682). -/
inductive Command : Type
  | Add : Entity → Command
  | Rename : (src : String) → (dst : String) → Command
  | Commit : Command
  | Info : EntityLookup → Command
  | Ban : EntityLookup → Command
  | Reload : Command
deriving DecidableEq, Repr

/-- Heads of the admin-gated arm of `Command::parse`
(src/main.rs line 691). -/
def adminHeads : List String := ["/add", "/rename", "/ban", "/commit", "/reload"]

/-- Heads of the final syntax-error arm of `Command::parse`
(src/main.rs lines 702-705). -/
def commandHeads : List String :=
  ["/info", "/add", "/rename", "/ban", "/commit", "/reload"]

/-- `Command::parse` (src/main.rs lines 684-711).  The entity parser
for `/add` payloads (`PublicKey::from_openssh` plus comment handling)
is external, so it is passed in as `parseEnt`.  The source's ordered
match is keyed here by the head token — each head's arity pattern
either fires or falls into the final `CommandParse` arm, exactly as
the arm order of the source resolves it: `/info` is tried before the
admin gate, the admin gate covers the five admin heads at any arity,
and an unknown head yields `None` (plain chat). -/
def Command.parse (parseEnt : String → Except Error Entity)
    (text : String) (role : Role) (name : String) :
    Except Error (Option Command) :=
  let is_admin := role = Role.Admin
  match tokenize text with
  | [] => .ok none
  | cmd :: args =>
    if cmd = "/info" then
      match args with
      | [payload] => (EntityLookup.fromStr payload).map (fun l => some (.Info l))
      | _ => .error (.CommandParse text)
    else if cmd ∈ adminHeads ∧ ¬ is_admin then
      .error (.NotAnAdmin name)
    else if cmd = "/add" then
      match args with
      | [payload] => (parseEnt payload).map (fun e => some (.Add e))
      | _ => .error (.CommandParse text)
    else if cmd = "/ban" then
      match args with
      | [payload] => (EntityLookup.fromStr payload).map (fun l => some (.Ban l))
      | _ => .error (.CommandParse text)
    else if cmd = "/commit" then
      match args with
      | [] => .ok (some .Commit)
      | _ => .error (.CommandParse text)
    else if cmd = "/reload" then
      match args with
      | [] => .ok (some .Reload)
      | _ => .error (.CommandParse text)
    else if cmd = "/rename" then
      match args with
      | [f, t] => .ok (some (.Rename f t))
      | _ => .error (.CommandParse text)
    else .ok none

/-- Per-channel client state (src/main.rs lines 48-54); the terminal
and channel handle are external, what remains observable is the
channel id, the textarea's bordered title, and the statusline. -/
structure Client : Type where
  channel : Nat
  title : String
  statusline : String
deriving DecidableEq, Repr

/-- The server-wide shared state (src/main.rs lines 56-68), with the
source field names: `keychain` is the ordered entity sequence,
`key_data_pool` the authorized key set, `key_data_to_user` the
key-to-entity index, `key_data_to_id` the key-to-connection-ids index,
`id_to_user` the connection-to-entity index, `clients` the live
client map. -/
structure ServerState : Type where
  keychain : List Entity
  key_data_pool : List Nat
  key_data_to_user : List (Nat × Entity)
  key_data_to_id : List (Nat × List Nat)
  id_to_user : List (Nat × Entity)
  clients : List (Nat × Client)
deriving DecidableEq, Repr

/-- `build_key_data_pool` (src/authfile.rs lines 62-64): the set of
key materials of the parsed entities. -/
def build_key_data_pool (entities : List Entity) : List Nat :=
  entities.foldl (fun pool e => pinsert pool e.key) []

/-- The `key_data_to_user` construction of `main` and `reload`
(src/main.rs lines 123-127 and 747-750): insert each entity under its
key material, later lines overwriting earlier ones. -/
def buildKeyToUser (entities : List Entity) : List (Nat × Entity) :=
  entities.foldl (fun m e => ainsert m e.key e) []

/-- The server state built by `main` (src/main.rs lines 741-771) from
a freshly parsed authfile. -/
def initState (entities : List Entity) : ServerState :=
  { keychain := entities
    key_data_pool := build_key_data_pool entities
    key_data_to_user := buildKeyToUser entities
    key_data_to_id := []
    id_to_user := []
    clients := [] }

/-- `AppServer::auth_publickey` (src/main.rs lines 466-483): if the
key material is in `key_data_to_user`, bind this connection id to the
entity in `id_to_user`, append the id to `key_data_to_id[key]`
(creating the entry if absent), and accept; otherwise reject with no
mutation.  Returns the new state and whether the key was accepted. -/
def auth_publickey (s : ServerState) (selfId : Nat) (key : Nat) :
    ServerState × Bool :=
  match alookup s.key_data_to_user key with
  | none => (s, false)
  | some e =>
    ({ s with
        id_to_user := ainsert s.id_to_user selfId e
        key_data_to_id :=
          ainsert s.key_data_to_id key
            (((alookup s.key_data_to_id key).getD []) ++ [selfId]) },
      true)

/-- `AppServer::channel_open_session` (src/main.rs lines 421-464):
build a client whose textarea is bordered with the entity's title and
whose statusline is empty, and insert it under this connection id.
`self.entity()` indexes `id_to_user`, which panics when the id is not
bound; that panic is modelled as `none`. -/
def channel_open_session (s : ServerState) (selfId : Nat) (chan : Nat) :
    Option ServerState :=
  (alookup s.id_to_user selfId).map (fun e =>
    { s with clients := ainsert s.clients selfId ⟨chan, e.title, ""⟩ })

/-- The Ctrl-C arm of `AppServer::data` (src/main.rs lines 493-520):
look the leaving connection up in `id_to_user` (on a miss, nothing is
mutated); then remove the WHOLE `key_data_to_id` entry for that
entity's key material, remove the id from `id_to_user`, and remove the
id from `clients`. -/
def ctrl_c (s : ServerState) (selfId : Nat) : ServerState :=
  match alookup s.id_to_user selfId with
  | none => s
  | some e =>
    { s with
        key_data_to_id := aremove s.key_data_to_id e.key
        id_to_user := aremove s.id_to_user selfId
        clients := aremove s.clients selfId }

/-- The client-eviction loop of the `/ban` arm (src/main.rs lines
328-336): for each id, skip it when it is not in `clients`; otherwise
close its channel — on failure return `ClientDisconnectFailed(id)`
with the removals done so far kept — and remove it from `clients`. -/
def banEvict (closeOk : Nat → Bool) :
    List Nat → List (Nat × Client) → List (Nat × Client) × Option Error
  | [], cl => (cl, none)
  | id :: rest, cl =>
    match alookup cl id with
    | none => banEvict closeOk rest cl
    | some _ =>
      if closeOk id then banEvict closeOk rest (aremove cl id)
      else (cl, some (.ClientDisconnectFailed id))

/-- The `Command::Ban` arm of `run_command` (src/main.rs lines
297-337): resolve the lookup against the keychain in order (no match:
silent no-op); fail with `NoBanSelf` when the resolved key material
equals the caller's own, before any mutation; otherwise remove the key
from `key_data_to_user` and `key_data_pool`, take the `key_data_to_id`
entry out (absent entry: stop there), and evict each of its ids from
`clients`.  `self.entity()` indexes `id_to_user` (panic modelled as
`none`).  `id_to_user` and `keychain` are never touched. -/
def ban (s : ServerState) (lk : EntityLookup) (callerId : Nat)
    (closeOk : Nat → Bool) : Option (ServerState × Option Error) :=
  match firstMatch lk s.keychain with
  | none => some (s, none)
  | some e =>
    match alookup s.id_to_user callerId with
    | none => none
    | some caller =>
      if caller.key = e.key then some (s, some .NoBanSelf)
      else
        let s1 := { s with
          key_data_to_user := aremove s.key_data_to_user e.key
          key_data_pool := premove s.key_data_pool e.key }
        match alookup s1.key_data_to_id e.key with
        | none => some (s1, none)
        | some ids =>
          let s2 := { s1 with
            key_data_to_id := aremove s1.key_data_to_id e.key }
          let r := banEvict closeOk ids s2.clients
          some ({ s2 with clients := r.1 }, r.2)

/-- The textarea-title update of the `Command::Rename` arm
(src/main.rs lines 230-240): set the bordered title of every listed
client that is still present; missing ids are skipped. -/
def setTitles (cl : List (Nat × Client)) (ids : List Nat) (t : String) :
    List (Nat × Client) :=
  ids.foldl
    (fun c id =>
      match alookup c id with
      | none => c
      | some client => ainsert c id { client with title := t })
    cl

/-- The keychain scan of the `Command::Rename` arm (src/main.rs lines
203-242): every entity whose current name differs from `src` is
skipped; a matching entity has its persona name set to the sanitized
`dst` (`Entity::set_name`); when `key_data_to_id` has no entry for its
key the command returns at once (leaving the rest of the keychain
untouched), otherwise the listed clients' titles are refreshed and the
scan CONTINUES with the next entity — there is no break. -/
def renameScan (kti : List (Nat × List Nat)) (src dst : String) :
    List Entity → List (Nat × Client) → List Entity × List (Nat × Client)
  | [], cl => ([], cl)
  | e :: rest, cl =>
    if e.name ≠ src then
      let r := renameScan kti src dst rest cl
      (e :: r.1, r.2)
    else
      let e2 := e.set_name dst
      match alookup kti e2.key with
      | none => (e2 :: rest, cl)
      | some ids =>
        let cl2 := setTitles cl ids e2.title
        let r := renameScan kti src dst rest cl2
        (e2 :: r.1, r.2)

/-- The `Command::Rename` arm of `run_command` as a state transition:
the scan reads `key_data_to_id` once and threads `clients` through the
title updates. -/
def rename (s : ServerState) (src dst : String) : ServerState :=
  let r := renameScan s.key_data_to_id src dst s.keychain s.clients
  { s with keychain := r.1, clients := r.2 }

/-- The `Command::Add` arm of `run_command` (src/main.rs lines
190-202): append the parsed entity to the keychain, insert its key
material into the pool and into `key_data_to_user`.  Live sessions are
untouched. -/
def add (s : ServerState) (e : Entity) : ServerState :=
  { s with
      keychain := s.keychain ++ [e]
      key_data_pool := pinsert s.key_data_pool e.key
      key_data_to_user := ainsert s.key_data_to_user e.key e }

/-- The id-eviction loop of `reload` (src/main.rs lines 110-117):
`&clients[id]` indexes the map (panic on a missing id, modelled as
`none`); close the channel — on failure return
`ClientDisconnectFailed(id)` keeping the removals done so far — then
remove the id from `clients` and from `id_to_user`. -/
def evictLoop (closeOk : Nat → Bool) :
    List Nat → List (Nat × Client) → List (Nat × Entity) →
    Option (List (Nat × Client) × List (Nat × Entity) × Option Error)
  | [], cl, itu => some (cl, itu, none)
  | id :: rest, cl, itu =>
    match alookup cl id with
    | none => none
    | some _ =>
      if closeOk id then
        evictLoop closeOk rest (aremove cl id) (aremove itu id)
      else some (cl, itu, some (.ClientDisconnectFailed id))

/-- The stray loop of `reload` (src/main.rs lines 104-121): for each
stray key, take its `key_data_to_id` ids (absent entry: continue),
evict them, and — only after the whole list is processed — drop the
stray's `key_data_to_id` entry.  A failed eviction returns at once
with the entry still present. -/
def straysLoop (closeOk : Nat → Bool) :
    List Nat → List (Nat × List Nat) → List (Nat × Client) →
    List (Nat × Entity) →
    Option (List (Nat × List Nat) × List (Nat × Client) ×
      List (Nat × Entity) × Option Error)
  | [], kti, cl, itu => some (kti, cl, itu, none)
  | stray :: rest, kti, cl, itu =>
    match alookup kti stray with
    | none => straysLoop closeOk rest kti cl itu
    | some ids =>
      match evictLoop closeOk ids cl itu with
      | none => none
      | some (cl2, itu2, some err) => some (kti, cl2, itu2, some err)
      | some (cl2, itu2, none) =>
        straysLoop closeOk rest (aremove kti stray) cl2 itu2

/-- `AppServer::reload` (src/main.rs lines 91-135).  `newAuth` is the
result of `authfile::read`: on a read/parse error nothing is touched;
otherwise the strays (old pool minus new pool) have their live
sessions evicted, and only after all evictions succeed are
`key_data_to_user`, `keychain` and `key_data_pool` replaced by the
freshly parsed values (`authfile::read` always derives the pool from
the parsed entities, so the new file is just its entity list). -/
def reload (s : ServerState) (newAuth : Except Error (List Entity))
    (closeOk : Nat → Bool) : Option (ServerState × Option Error) :=
  match newAuth with
  | .error e => some (s, some e)
  | .ok entities =>
    let newPool := build_key_data_pool entities
    let strays := s.key_data_pool.filter (fun k => decide (k ∉ newPool))
    match straysLoop closeOk strays s.key_data_to_id s.clients s.id_to_user with
    | none => none
    | some (kti2, cl2, itu2, some err) =>
      some ({ s with
          key_data_to_id := kti2, clients := cl2, id_to_user := itu2 },
        some err)
    | some (kti2, cl2, itu2, none) =>
      some ({ s with
          key_data_to_id := kti2
          clients := cl2
          id_to_user := itu2
          key_data_to_user := buildKeyToUser entities
          keychain := entities
          key_data_pool := newPool },
        none)

theorem alookup_aremove {α : Type} (l : List (Nat × α)) (k j : Nat) :
    alookup (aremove l k) j = if j = k then none else alookup l j := by
  induction l with
  | nil => simp [aremove, alookup]
  | cons p t ih =>
    rcases p with ⟨a, v⟩
    by_cases hak : a = k <;> by_cases haj : a = j <;> by_cases hjk : j = k <;>
      simp_all [aremove, alookup]

theorem alookup_ainsert {α : Type} (l : List (Nat × α)) (k j : Nat) (v : α) :
    alookup (ainsert l k v) j = if j = k then some v else alookup l j := by
  by_cases h : j = k
  · subst h; simp [ainsert, alookup]
  · have h2 : ¬ k = j := fun hh => h hh.symm
    simp [ainsert, alookup, h, h2, alookup_aremove]

theorem mem_aremove {α : Type} (l : List (Nat × α)) (k : Nat) (p : Nat × α) :
    p ∈ aremove l k ↔ p ∈ l ∧ p.1 ≠ k := by
  induction l with
  | nil => simp [aremove]
  | cons q t ih =>
    rcases q with ⟨a, v⟩
    by_cases hak : a = k
    · subst hak
      rw [show aremove ((a, v) :: t) a = aremove t a from by simp [aremove]]
      rw [ih]
      simp only [List.mem_cons]
      constructor
      · rintro ⟨h1, h2⟩; exact ⟨Or.inr h1, h2⟩
      · rintro ⟨rfl | h1, h2⟩
        · exact absurd rfl h2
        · exact ⟨h1, h2⟩
    · rw [show aremove ((a, v) :: t) k = (a, v) :: aremove t k from by
        simp [aremove, hak]]
      simp only [List.mem_cons, ih]
      constructor
      · rintro (rfl | ⟨h1, h2⟩)
        · exact ⟨Or.inl rfl, hak⟩
        · exact ⟨Or.inr h1, h2⟩
      · rintro ⟨rfl | h1, h2⟩
        · exact Or.inl rfl
        · exact Or.inr ⟨h1, h2⟩

theorem alookup_eq_none {α : Type} (l : List (Nat × α)) (k : Nat) :
    alookup l k = none ↔ ∀ p ∈ l, p.1 ≠ k := by
  induction l with
  | nil => simp [alookup]
  | cons p t ih =>
    rcases p with ⟨a, v⟩
    by_cases h : a = k <;> simp_all [alookup]

theorem alookup_mem {α : Type} {l : List (Nat × α)} {k : Nat} {v : α}
    (h : alookup l k = some v) : (k, v) ∈ l := by
  induction l with
  | nil => simp [alookup] at h
  | cons p t ih =>
    rcases p with ⟨a, w⟩
    by_cases hak : a = k
    · subst hak
      simp [alookup] at h
      simp [h]
    · simp [alookup, hak] at h
      exact List.mem_cons_of_mem _ (ih h)

theorem alookup_isSome {α : Type} (l : List (Nat × α)) (k : Nat) :
    (alookup l k).isSome = true ↔ ∃ p ∈ l, p.1 = k := by
  rw [Option.isSome_iff_ne_none, Ne, alookup_eq_none]
  push_neg
  simp

theorem mem_premove (l : List Nat) (k x : Nat) :
    x ∈ premove l k ↔ x ∈ l ∧ x ≠ k := by
  simp [premove]

theorem mem_pinsert (l : List Nat) (k x : Nat) :
    x ∈ pinsert l k ↔ x = k ∨ x ∈ l := by
  unfold pinsert
  by_cases h : k ∈ l
  · simp only [if_pos h]
    constructor
    · exact Or.inr
    · rintro (rfl | hx)
      · exact h
      · exact hx
  · simp [if_neg h]

theorem mem_foldl_pinsert (es : List Entity) (acc : List Nat) (k : Nat) :
    k ∈ es.foldl (fun pool e => pinsert pool e.key) acc ↔
      k ∈ acc ∨ ∃ e ∈ es, e.key = k := by
  induction es generalizing acc with
  | nil => simp
  | cons e t ih =>
    simp only [List.foldl_cons, ih, mem_pinsert, List.mem_cons]
    constructor
    · rintro ((rfl | h) | ⟨e2, h2, rfl⟩)
      · exact Or.inr ⟨e, Or.inl rfl, rfl⟩
      · exact Or.inl h
      · exact Or.inr ⟨e2, Or.inr h2, rfl⟩
    · rintro (h | ⟨e2, rfl | h2, rfl⟩)
      · exact Or.inl (Or.inr h)
      · exact Or.inl (Or.inl rfl)
      · exact Or.inr ⟨e2, h2, rfl⟩

theorem mem_build_key_data_pool (es : List Entity) (k : Nat) :
    k ∈ build_key_data_pool es ↔ ∃ e ∈ es, e.key = k := by
  simp [build_key_data_pool, mem_foldl_pinsert]

theorem mem_foldl_ainsert (es : List Entity) (acc : List (Nat × Entity))
    (p : Nat × Entity) :
    p ∈ es.foldl (fun m e => ainsert m e.key e) acc →
      p ∈ acc ∨ ∃ e ∈ es, p = (e.key, e) := by
  induction es generalizing acc with
  | nil => simp
  | cons e t ih =>
    intro h
    rcases ih _ h with h2 | ⟨e2, h2, rfl⟩
    · rcases List.mem_cons.mp h2 with h3 | h3
      · exact Or.inr ⟨e, by simp, h3⟩
      · exact Or.inl ((mem_aremove _ _ _).mp h3).1
    · exact Or.inr ⟨e2, by simp [h2]⟩

theorem mem_buildKeyToUser (es : List Entity) (p : Nat × Entity) :
    p ∈ buildKeyToUser es → ∃ e ∈ es, p = (e.key, e) := by
  intro h
  rcases mem_foldl_ainsert es [] p h with h2 | h2
  · simp at h2
  · exact h2

/-- The connection id `id` is bound in `id_to_user` to an entity whose
key material is `k`. -/
def keyFits (itu : List (Nat × Entity)) (id k : Nat) : Prop :=
  ∃ e, alookup itu id = some e ∧ e.key = k

instance (itu : List (Nat × Entity)) (id k : Nat) : Decidable (keyFits itu id k) := by
  unfold keyFits
  cases h : alookup itu id with
  | none => exact isFalse (by simp [h])
  | some e => exact decidable_of_iff (e.key = k) (by simp [h])

/-- Spec invariant 3 in full: every `key_data_to_id` entry has its key
in the pool, and each listed connection id is a key of `clients` and
is bound in `id_to_user` to an entity with that key material. -/
def InvC8 (s : ServerState) : Prop :=
  ∀ p ∈ s.key_data_to_id, p.1 ∈ s.key_data_pool ∧
    ∀ id ∈ p.2, (alookup s.clients id).isSome = true ∧
      keyFits s.id_to_user id p.1

instance (s : ServerState) : Decidable (InvC8 s) := by
  unfold InvC8; infer_instance

/-- If the binding is present, its entity carries key material `k`. -/
def optKeyMatches : Option Entity → Nat → Prop
  | some e, k => e.key = k
  | none, _ => True

instance (o : Option Entity) (k : Nat) : Decidable (optKeyMatches o k) := by
  cases o with
  | none => exact isTrue trivial
  | some e => exact decidable_of_iff (e.key = k) Iff.rfl

/-- Spec invariant 3 weakened to what survives every path of the
code, failed channel closes included: each `key_data_to_id` entry has
its key in the pool, and each listed connection id that is still bound
in `id_to_user` is bound to an entity with that key material. -/
def InvWeak (s : ServerState) : Prop :=
  ∀ p ∈ s.key_data_to_id, p.1 ∈ s.key_data_pool ∧
    ∀ id ∈ p.2, optKeyMatches (alookup s.id_to_user id) p.1

instance (s : ServerState) : Decidable (InvWeak s) := by
  unfold InvWeak; infer_instance

/-- Auxiliary structural invariant: every `key_data_to_user` binding
maps a key to an entity carrying that key, and its key is pooled. -/
def KtuConsistent (s : ServerState) : Prop :=
  ∀ p ∈ s.key_data_to_user, p.2.key = p.1 ∧ p.1 ∈ s.key_data_pool

instance (s : ServerState) : Decidable (KtuConsistent s) := by
  unfold KtuConsistent; infer_instance

/-- Spec invariant 4: `clients` and `id_to_user` (the
`conn_to_entity` index) have the same key set. -/
def DomEq (s : ServerState) : Prop :=
  (∀ p ∈ s.clients, (alookup s.id_to_user p.1).isSome = true) ∧
  (∀ p ∈ s.id_to_user, (alookup s.clients p.1).isSome = true)

instance (s : ServerState) : Decidable (DomEq s) := by
  unfold DomEq; infer_instance

theorem DomEq_iff (s : ServerState) :
    DomEq s ↔
      ∀ j, (alookup s.clients j).isSome = (alookup s.id_to_user j).isSome := by
  constructor
  · rintro ⟨h1, h2⟩ j
    cases hc : alookup s.clients j with
    | some v =>
      have := h1 _ (alookup_mem hc)
      simp_all
    | none =>
      cases hi : alookup s.id_to_user j with
      | some w =>
        have := h2 _ (alookup_mem hi)
        simp_all
      | none => simp
  · intro h
    constructor
    · intro p hp
      have hs : (alookup s.clients p.1).isSome = true :=
        (alookup_isSome _ _).mpr ⟨p, hp, rfl⟩
      rw [← h]; exact hs
    · intro p hp
      have hs : (alookup s.id_to_user p.1).isSome = true :=
        (alookup_isSome _ _).mpr ⟨p, hp, rfl⟩
      rw [h]; exact hs

/-- The state transitions of the control plane, as invoked by the SSH
library and the command executor.  The ban and reload steps carry an
arbitrary channel-close environment, so states reached through
`ClientDisconnectFailed` eviction failures are reachable too.
`auth_publickey` carries the freshness facts the id allocator
guarantees: `new_client` hands every connection an id from a
never-reused monotonic counter, and an id enters `id_to_user` or a
`key_data_to_id` list only through that connection's own successful
authentication (which russh performs at most once per connection) —
so at authentication time the id is bound in neither map. -/
inductive Step : ServerState → ServerState → Prop
  | auth (s : ServerState) (selfId key : Nat)
      (fresh_itu : alookup s.id_to_user selfId = none)
      (fresh_kti : ∀ p ∈ s.key_data_to_id, selfId ∉ p.2) :
      Step s (auth_publickey s selfId key).1
  | chanOpen (s : ServerState) (selfId chan : Nat) (s2 : ServerState)
      (h : channel_open_session s selfId chan = some s2) : Step s s2
  | quit (s : ServerState) (selfId : Nat) : Step s (ctrl_c s selfId)
  | banStep (s : ServerState) (lk : EntityLookup) (callerId : Nat)
      (closeOk : Nat → Bool) (s2 : ServerState) (err : Option Error)
      (h : ban s lk callerId closeOk = some (s2, err)) : Step s s2
  | reloadStep (s : ServerState) (entities : List Entity)
      (closeOk : Nat → Bool) (s2 : ServerState) (err : Option Error)
      (h : reload s (.ok entities) closeOk = some (s2, err)) :
      Step s s2

/-- States reachable from a server started by `main` on some parsed
authfile, under the `Step` transitions. -/
inductive Reachable : ServerState → Prop
  | init (entities : List Entity) : Reachable (initState entities)
  | step {s s2 : ServerState} : Reachable s → Step s s2 → Reachable s2

/-- Concrete admin entity used by witnesses and counterexamples. -/
def entA : Entity := { name := "alice", role := Role.Admin, key := 1 }

/-- Concrete normal entity used by witnesses and counterexamples. -/
def entB : Entity := { name := "bob", role := Role.Normal, key := 2 }

/-- Concrete client record on a given channel. -/
def clientOn (ch : Nat) : Client := { channel := ch, title := "t", statusline := "" }

/-- C6: a `Dossier` message is part of the history rendered for a
client exactly when that client's connection id equals the dossier's
`requested_by`; every other client's rendered history excludes it. -/
theorem dossier_visible_iff_requester (h : List Message) (c : Nat)
    (contents : String) (rb : Nat) :
    Message.Dossier contents rb ∈ renderVisible c h ↔
      rb = c ∧ Message.Dossier contents rb ∈ h := by
  simp only [renderVisible, List.mem_filter]
  constructor
  · rintro ⟨hm, hf⟩
    refine ⟨?_, hm⟩
    simpa using hf
  · rintro ⟨rfl, hm⟩
    exact ⟨hm, by simp⟩

/-- C7: when `/ban` resolves to an entity whose key material equals
the caller's own, the command fails with `NoBanSelf` and the returned
state is exactly the input state — nothing is modified. -/
theorem ban_self_fails_unchanged (s : ServerState) (lk : EntityLookup)
    (callerId : Nat) (closeOk : Nat → Bool) (e caller : Entity)
    (hm : firstMatch lk s.keychain = some e)
    (hc : alookup s.id_to_user callerId = some caller)
    (hk : caller.key = e.key) :
    ban s lk callerId closeOk = some (s, some Error.NoBanSelf) := by
  simp [ban, hm, hc, hk]

/-- Concrete single-admin state used by the C7 witness. -/
def stateA : ServerState :=
  { keychain := [entA]
    key_data_pool := [1]
    key_data_to_user := [(1, entA)]
    key_data_to_id := [(1, [0])]
    id_to_user := [(0, entA)]
    clients := [(0, clientOn 10)] }

/-- C7 witness: a concrete self-ban returns `NoBanSelf` with the state
unchanged. -/
theorem ban_self_fails_unchanged_witness :
    firstMatch (EntityLookup.Name "alice") stateA.keychain = some entA ∧
    alookup stateA.id_to_user 0 = some entA ∧
    ban stateA (EntityLookup.Name "alice") 0 (fun _ => true) =
      some (stateA, some Error.NoBanSelf) :=
  ⟨by decide, by decide,
    ban_self_fails_unchanged stateA (EntityLookup.Name "alice") 0
      (fun _ => true) entA entA (by decide) (by decide) rfl⟩

/-- C9: lookup round-trip — for every entity, the name lookup built
from its live persona name matches it, and the fingerprint lookup
built from `"SHA256:"` followed by its fingerprint digest (that is,
the full `Entity::fingerprint` string) matches it. -/
theorem lookup_round_trip (e : Entity) :
    (EntityLookup.Name e.name).matches e = true ∧
    (EntityLookup.Sha256 ("SHA256:" ++ toString e.key)).matches e = true := by
  constructor
  · simp [EntityLookup.matches]
  · simp [EntityLookup.matches, Entity.fingerprint]

/-- C10 counterexample: `"/ban "` has an admin command as first token
and a trailing space, yet for an admin it parses successfully — the
empty trailing token fills the payload position and becomes the lookup
`Name ""` — instead of returning `CommandParse`. -/
theorem parse_trailing_space_ban_cex :
    Command.parse (fun _ => Except.error Error.EntityParsing) "/ban "
      Role.Admin "alice" = .ok (some (Command.Ban (EntityLookup.Name ""))) := by
  rfl

/-- C10 amended: for the nullary admin commands `/commit` and
`/reload`, any extra whitespace makes the token list longer than one
and the parse fails with `CommandParse(text)`; but when the empty
token produced by the extra whitespace can fill a payload position the
command parses instead — `"/ban "` parses as `Ban (Name "")`. -/
theorem parse_trailing_space (pe : String → Except Error Entity)
    (text name : String) (rest : List String) :
    ((tokenize text = "/commit" :: rest ∨ tokenize text = "/reload" :: rest) →
      rest ≠ [] →
      Command.parse pe text Role.Admin name = .error (.CommandParse text)) ∧
    Command.parse pe "/ban " Role.Admin name =
      .ok (some (Command.Ban (EntityLookup.Name ""))) := by
  constructor
  · intro h hne
    obtain ⟨a, rest2, rfl⟩ : ∃ a r2, rest = a :: r2 := by
      cases rest with
      | nil => exact absurd rfl hne
      | cons a r => exact ⟨a, r, rfl⟩
    rcases h with h | h <;> simp [Command.parse, h, adminHeads]
  · rfl

/-- C10 amended witness: `"/commit "` (one trailing space) is a
command-parse error for an admin, while `"/ban "` parses. -/
theorem parse_trailing_space_witness :
    tokenize "/commit " = "/commit" :: [""] ∧
    Command.parse (fun _ => Except.error Error.EntityParsing) "/commit "
      Role.Admin "alice" = .error (.CommandParse "/commit ") ∧
    Command.parse (fun _ => Except.error Error.EntityParsing) "/ban "
      Role.Admin "alice" = .ok (some (Command.Ban (EntityLookup.Name ""))) :=
  ⟨by decide,
    (parse_trailing_space (fun _ => Except.error Error.EntityParsing)
      "/commit " "alice" [""]).1 (Or.inl (by decide)) (by decide),
    (parse_trailing_space (fun _ => Except.error Error.EntityParsing)
      "/ban " "alice" []).2⟩

/-- Concrete state with two live sessions (ids 0 and 1) sharing key
material 1, used by the C2 and C5 analyses. -/
def stateTwoSessions : ServerState :=
  { keychain := [entA]
    key_data_pool := [1]
    key_data_to_user := [(1, entA)]
    key_data_to_id := [(1, [0, 1])]
    id_to_user := [(0, entA), (1, entA)]
    clients := [(0, clientOn 10), (1, clientOn 11)] }

/-- C2 counterexample: with two sessions (ids 0 and 1) on the same
key, the Ctrl-C of session 0 removes the ENTIRE `key_data_to_id` entry
for the key, so the other session's id 1 does not remain there — the
claimed splice-one-id-out behavior does not happen. -/
theorem ctrl_c_drops_sibling_cex :
    alookup stateTwoSessions.key_data_to_id 1 = some [0, 1] ∧
    (ctrl_c stateTwoSessions 0).key_data_to_id = [] := by
  decide

/-- C2 amended: on Ctrl-C the leaving session's id is removed from
`clients` and `id_to_user`, every other id keeps its bindings there,
but the WHOLE `key_data_to_id` entry of the leaving session's key is
removed — sibling sessions on the same key lose their listing in
`key_data_to_id` (while staying in `clients` and `id_to_user`). -/
theorem ctrl_c_removes_whole_entry (s : ServerState) (selfId other : Nat)
    (e : Entity) (h1 : alookup s.id_to_user selfId = some e)
    (h2 : other ≠ selfId) :
    alookup (ctrl_c s selfId).key_data_to_id e.key = none ∧
    alookup (ctrl_c s selfId).clients other = alookup s.clients other ∧
    alookup (ctrl_c s selfId).id_to_user other = alookup s.id_to_user other := by
  simp [ctrl_c, h1, alookup_aremove, h2]

/-- C2 amended witness: concrete two-session Ctrl-C. -/
theorem ctrl_c_removes_whole_entry_witness :
    alookup (ctrl_c stateTwoSessions 0).key_data_to_id entA.key = none ∧
    alookup (ctrl_c stateTwoSessions 0).clients 1 =
      alookup stateTwoSessions.clients 1 ∧
    alookup (ctrl_c stateTwoSessions 0).id_to_user 1 =
      alookup stateTwoSessions.id_to_user 1 :=
  ctrl_c_removes_whole_entry stateTwoSessions 0 1 entA (by decide) (by decide)

/-- Concrete state with two distinct entities that share the persona
name `"alice"`, the first of which has a live session. -/
def stateDupNames : ServerState :=
  { keychain := [⟨"alice", Role.Normal, 1⟩, ⟨"alice", Role.Normal, 2⟩]
    key_data_pool := [1, 2]
    key_data_to_user :=
      [(1, ⟨"alice", Role.Normal, 1⟩), (2, ⟨"alice", Role.Normal, 2⟩)]
    key_data_to_id := [(1, [0])]
    id_to_user := [(0, ⟨"alice", Role.Normal, 1⟩)]
    clients := [(0, clientOn 10)] }

/-- C3 counterexample: `/rename alice carol` on a keychain with two
entities named `alice` (the first having a live session) renames BOTH
— the scan has no break, so after renaming the first match it
continues and renames the later entity whose name also equals `from`,
contradicting that all other entities are unchanged. -/
theorem rename_renames_later_match_cex :
    (rename stateDupNames "alice" "carol").keychain =
      [⟨"carol", Role.Normal, 1⟩, ⟨"carol", Role.Normal, 2⟩] := by
  decide

theorem Entity.set_name_key (e : Entity) (n : String) :
    (e.set_name n).key = e.key := rfl

theorem renameScan_cons_nomatch (kti : List (Nat × List Nat))
    (src dst : String) (e0 : Entity) (rest : List Entity)
    (cl : List (Nat × Client)) (h : ¬ e0.name = src) :
    renameScan kti src dst (e0 :: rest) cl =
      (e0 :: (renameScan kti src dst rest cl).1,
        (renameScan kti src dst rest cl).2) := by
  simp [renameScan, h]

theorem renameScan_cons_match_none (kti : List (Nat × List Nat))
    (src dst : String) (e0 : Entity) (rest : List Entity)
    (cl : List (Nat × Client)) (h : e0.name = src)
    (hk : alookup kti e0.key = none) :
    renameScan kti src dst (e0 :: rest) cl = (e0.set_name dst :: rest, cl) := by
  simp [renameScan, h, Entity.set_name_key, hk]

theorem renameScan_cons_match_some (kti : List (Nat × List Nat))
    (src dst : String) (e0 : Entity) (rest : List Entity)
    (cl : List (Nat × Client)) (ids : List Nat) (h : e0.name = src)
    (hk : alookup kti e0.key = some ids) :
    renameScan kti src dst (e0 :: rest) cl =
      (e0.set_name dst ::
        (renameScan kti src dst rest
          (setTitles cl ids (e0.set_name dst).title)).1,
        (renameScan kti src dst rest
          (setTitles cl ids (e0.set_name dst).title)).2) := by
  simp [renameScan, h, Entity.set_name_key, hk]

theorem renameScan_length (kti : List (Nat × List Nat)) (src dst : String) :
    ∀ (es : List Entity) (cl : List (Nat × Client)),
      (renameScan kti src dst es cl).1.length = es.length := by
  intro es
  induction es with
  | nil => intro cl; simp [renameScan]
  | cons e0 rest ih =>
    intro cl
    by_cases h0 : e0.name = src
    · cases hk : alookup kti e0.key with
      | none => rw [renameScan_cons_match_none _ _ _ _ _ _ h0 hk]; simp
      | some ids =>
        rw [renameScan_cons_match_some _ _ _ _ _ _ _ h0 hk]
        simp [ih]
    · rw [renameScan_cons_nomatch _ _ _ _ _ _ h0]; simp [ih]

theorem renameScan_get_nonmatch (kti : List (Nat × List Nat))
    (src dst : String) :
    ∀ (es : List Entity) (cl : List (Nat × Client)) (i : Nat) (e : Entity),
      es.get? i = some e → e.name ≠ src →
      (renameScan kti src dst es cl).1.get? i = some e := by
  intro es
  induction es with
  | nil => intro cl i e h hne; simp at h
  | cons e0 rest ih =>
    intro cl i e h hne
    by_cases h0 : e0.name = src
    · cases hk : alookup kti e0.key with
      | none =>
        rw [renameScan_cons_match_none _ _ _ _ _ _ h0 hk]
        cases i with
        | zero =>
          simp only [List.get?_cons_zero] at h
          injection h with h
          subst h
          exact absurd h0 hne
        | succ n =>
          simp only [List.get?_cons_succ] at h ⊢
          exact h
      | some ids =>
        rw [renameScan_cons_match_some _ _ _ _ _ _ _ h0 hk]
        cases i with
        | zero =>
          simp only [List.get?_cons_zero] at h
          injection h with h
          subst h
          exact absurd h0 hne
        | succ n =>
          simp only [List.get?_cons_succ] at h ⊢
          exact ih _ n e h hne
    · rw [renameScan_cons_nomatch _ _ _ _ _ _ h0]
      cases i with
      | zero =>
        simp only [List.get?_cons_zero] at h ⊢
        exact h
      | succ n =>
        simp only [List.get?_cons_succ] at h ⊢
        exact ih cl n e h hne

theorem renameScan_get_first (kti : List (Nat × List Nat))
    (src dst : String) :
    ∀ (es : List Entity) (cl : List (Nat × Client)) (i : Nat) (e : Entity),
      es.get? i = some e → e.name = src →
      (∀ j ej, j < i → es.get? j = some ej → ej.name ≠ src) →
      (renameScan kti src dst es cl).1.get? i = some (e.set_name dst) := by
  intro es
  induction es with
  | nil => intro cl i e h; simp at h
  | cons e0 rest ih =>
    intro cl i e h hmatch hfirst
    cases i with
    | zero =>
      simp only [List.get?_cons_zero] at h
      injection h with h
      subst h
      cases hk : alookup kti e0.key with
      | none =>
        rw [renameScan_cons_match_none _ _ _ _ _ _ hmatch hk]
        simp
      | some ids =>
        rw [renameScan_cons_match_some _ _ _ _ _ _ _ hmatch hk]
        simp
    | succ n =>
      have h0 : e0.name ≠ src := hfirst 0 e0 (Nat.succ_pos n) rfl
      rw [renameScan_cons_nomatch _ _ _ _ _ _ h0]
      simp only [List.get?_cons_succ] at h ⊢
      exact ih _ n e h hmatch
        (fun j ej hj hg => hfirst (j + 1) ej (by omega) (by simpa using hg))

/-- C3 amended: the `/rename from to` scan renames the first entity
whose current name equals `from` to the sanitized `to`, and every
entity whose name differs from `from` is unchanged; but the scan does
not stop at the first match — a later entity whose name also equals
`from` can be renamed as well (it is left alone only when an earlier
renamed entity had no live session, which aborts the scan early). -/
theorem rename_first_and_nonmatch (s : ServerState) (src dst : String) :
    ((rename s src dst).keychain.length = s.keychain.length) ∧
    (∀ j ej, s.keychain.get? j = some ej → ej.name ≠ src →
      (rename s src dst).keychain.get? j = some ej) ∧
    (∀ i e, s.keychain.get? i = some e → e.name = src →
      (∀ j ej, j < i → s.keychain.get? j = some ej → ej.name ≠ src) →
      (rename s src dst).keychain.get? i = some (e.set_name dst)) :=
  ⟨renameScan_length _ src dst s.keychain s.clients,
    fun j ej hj hne =>
      renameScan_get_nonmatch _ src dst s.keychain s.clients j ej hj hne,
    fun i e hi hm hf =>
      renameScan_get_first _ src dst s.keychain s.clients i e hi hm hf⟩

/-- C3 amended witness: in the duplicate-name state the first match is
renamed (to the sanitized new name), and a non-matching entity is left
unchanged. -/
theorem rename_first_and_nonmatch_witness :
    (rename stateDupNames "alice" "carol").keychain.get? 0 =
      some (Entity.set_name ⟨"alice", Role.Normal, 1⟩ "carol") ∧
    (rename (initState [entB]) "alice" "carol").keychain.get? 0 = some entB :=
  ⟨(rename_first_and_nonmatch stateDupNames "alice" "carol").2.2 0
      ⟨"alice", Role.Normal, 1⟩ (by decide) (by decide)
      (fun j ej hj _ => absurd hj (Nat.not_lt_zero j)),
    (rename_first_and_nonmatch (initState [entB]) "alice" "carol").2.1 0 entB
      (by decide) (by decide)⟩

theorem evictLoop_dom (closeOk : Nat → Bool) :
    ∀ (ids : List Nat) (cl : List (Nat × Client)) (itu : List (Nat × Entity))
      (cl2 : List (Nat × Client)) (itu2 : List (Nat × Entity))
      (err : Option Error),
      evictLoop closeOk ids cl itu = some (cl2, itu2, err) →
      (∀ j, (alookup cl j).isSome = (alookup itu j).isSome) →
      ∀ j, (alookup cl2 j).isSome = (alookup itu2 j).isSome := by
  intro ids
  induction ids with
  | nil =>
    intro cl itu cl2 itu2 err h hdom
    simp only [evictLoop, Option.some.injEq, Prod.mk.injEq] at h
    obtain ⟨h1, h2, _⟩ := h
    subst h1; subst h2
    exact hdom
  | cons id rest ih =>
    intro cl itu cl2 itu2 err h hdom
    simp only [evictLoop] at h
    cases hcl : alookup cl id with
    | none => rw [hcl] at h; simp at h
    | some c =>
      rw [hcl] at h
      by_cases hok : closeOk id = true
      · rw [if_pos hok] at h
        refine ih _ _ _ _ _ h (fun j => ?_)
        rw [alookup_aremove, alookup_aremove]
        by_cases hj : j = id
        · simp [hj]
        · simp only [if_neg hj]
          exact hdom j
      · rw [if_neg hok] at h
        simp only [Option.some.injEq, Prod.mk.injEq] at h
        obtain ⟨h1, h2, _⟩ := h
        subst h1; subst h2
        exact hdom

theorem straysLoop_dom (closeOk : Nat → Bool) :
    ∀ (strays : List Nat) (kti : List (Nat × List Nat))
      (cl : List (Nat × Client)) (itu : List (Nat × Entity))
      (kti2 : List (Nat × List Nat)) (cl2 : List (Nat × Client))
      (itu2 : List (Nat × Entity)) (err : Option Error),
      straysLoop closeOk strays kti cl itu = some (kti2, cl2, itu2, err) →
      (∀ j, (alookup cl j).isSome = (alookup itu j).isSome) →
      ∀ j, (alookup cl2 j).isSome = (alookup itu2 j).isSome := by
  intro strays
  induction strays with
  | nil =>
    intro kti cl itu kti2 cl2 itu2 err h hdom
    simp only [straysLoop, Option.some.injEq, Prod.mk.injEq] at h
    obtain ⟨_, h2, h3, _⟩ := h
    subst h2; subst h3
    exact hdom
  | cons stray rest ih =>
    intro kti cl itu kti2 cl2 itu2 err h hdom
    simp only [straysLoop] at h
    split at h
    · exact ih _ _ _ _ _ _ _ h hdom
    · rename_i ids hk
      split at h
      · simp at h
      · rename_i cl3 itu3 e3 hev
        simp only [Option.some.injEq, Prod.mk.injEq] at h
        obtain ⟨_, h2, h3, _⟩ := h
        subst h2; subst h3
        exact evictLoop_dom closeOk ids cl itu cl3 itu3 (some e3) hev hdom
      · rename_i cl3 itu3 hev
        exact ih _ _ _ _ _ _ _ h
          (evictLoop_dom closeOk ids cl itu cl3 itu3 none hev hdom)

/-- The state a non-erroring stray pass leaves behind before the map
replacement (only the session indexes changed). -/
def reloadEvicted (s : ServerState) (kti2 : List (Nat × List Nat))
    (cl2 : List (Nat × Client)) (itu2 : List (Nat × Entity)) : ServerState :=
  { s with key_data_to_id := kti2, clients := cl2, id_to_user := itu2 }

/-- The state a fully successful reload produces: evicted session
indexes plus the freshly parsed keychain, pool and key index. -/
def reloadApplied (s : ServerState) (ents : List Entity)
    (kti2 : List (Nat × List Nat)) (cl2 : List (Nat × Client))
    (itu2 : List (Nat × Entity)) : ServerState :=
  { s with
      key_data_to_id := kti2
      clients := cl2
      id_to_user := itu2
      key_data_to_user := buildKeyToUser ents
      keychain := ents
      key_data_pool := build_key_data_pool ents }

/-- Inversion of a non-panicking `reload` on a parsed file: the strays
loop ran, and the final state is the loop's maps — with the keychain,
pool, and key-to-entity index replaced only when no error occurred. -/
theorem reload_ok_inversion (s : ServerState) (ents : List Entity)
    (closeOk : Nat → Bool) (s2 : ServerState) (err : Option Error)
    (h : reload s (.ok ents) closeOk = some (s2, err)) :
    ∃ kti2 cl2 itu2,
      straysLoop closeOk
        (s.key_data_pool.filter
          (fun k => decide (k ∉ build_key_data_pool ents)))
        s.key_data_to_id s.clients s.id_to_user = some (kti2, cl2, itu2, err) ∧
      (((∃ e, err = some e) ∧ s2 = reloadEvicted s kti2 cl2 itu2) ∨
        (err = none ∧ s2 = reloadApplied s ents kti2 cl2 itu2)) := by
  simp only [reload] at h
  cases hstr : straysLoop closeOk
      (s.key_data_pool.filter
        (fun k => decide (k ∉ build_key_data_pool ents)))
      s.key_data_to_id s.clients s.id_to_user with
  | none => rw [hstr] at h; simp at h
  | some r =>
    obtain ⟨kti2, cl2, itu2, err2⟩ := r
    rw [hstr] at h
    cases err2 with
    | none =>
      simp only [Option.some.injEq, Prod.mk.injEq] at h
      obtain ⟨h1, h2⟩ := h
      subst h2
      exact ⟨kti2, cl2, itu2, rfl, Or.inr ⟨rfl, h1.symm⟩⟩
    | some e2 =>
      simp only [Option.some.injEq, Prod.mk.injEq] at h
      obtain ⟨h1, h2⟩ := h
      subst h2
      exact ⟨kti2, cl2, itu2, rfl, Or.inl ⟨⟨e2, rfl⟩, h1.symm⟩⟩

/-- Concrete two-user state: admin alice (session 0) and normal bob
(session 1), fully consistent. -/
def stateTwo : ServerState :=
  { keychain := [entA, entB]
    key_data_pool := [1, 2]
    key_data_to_user := [(1, entA), (2, entB)]
    key_data_to_id := [(1, [0]), (2, [1])]
    id_to_user := [(0, entA), (1, entB)]
    clients := [(0, clientOn 10), (1, clientOn 11)] }

/-- The state `/ban bob` by alice leaves behind. -/
def stateTwoBanned : ServerState :=
  { keychain := [entA, entB]
    key_data_pool := [1]
    key_data_to_user := [(1, entA)]
    key_data_to_id := [(1, [0])]
    id_to_user := [(0, entA), (1, entB)]
    clients := [(0, clientOn 10)] }

/-- C1 counterexample: starting from a state satisfying the
clients/conn_to_entity domain equality, `/ban bob` evicts bob's
connection id 1 from `clients` but leaves it in `id_to_user`
(`conn_to_entity`), so the evicted id is NOT absent from both maps and
the domain-equality invariant is broken by the ban operation. -/
theorem ban_breaks_dom_eq_cex :
    DomEq stateTwo ∧
    ban stateTwo (EntityLookup.Name "bob") 0 (fun _ => true) =
      some (stateTwoBanned, none) ∧
    alookup stateTwoBanned.clients 1 = none ∧
    alookup stateTwoBanned.id_to_user 1 = some entB ∧
    ¬ DomEq stateTwoBanned := by
  decide

/-- C1 amended: the clients/conn_to_entity domain equality is
preserved by the Ctrl-C removal and by every non-panicking `/reload`
(evictions there remove ids from both maps in step), but `/ban` never
touches `id_to_user` at all — an evicted id is removed from `clients`
only and remains in `conn_to_entity`, so a ban with live connections
breaks the equality. -/
theorem dom_eq_ops :
    (∀ (s : ServerState) (selfId : Nat), DomEq s → DomEq (ctrl_c s selfId)) ∧
    (∀ (s : ServerState) (na : Except Error (List Entity))
      (closeOk : Nat → Bool) (s2 : ServerState) (err : Option Error),
      reload s na closeOk = some (s2, err) → DomEq s → DomEq s2) ∧
    (∀ (s : ServerState) (lk : EntityLookup) (callerId : Nat)
      (closeOk : Nat → Bool) (s2 : ServerState) (err : Option Error),
      ban s lk callerId closeOk = some (s2, err) →
      s2.id_to_user = s.id_to_user) := by
  refine ⟨?_, ?_, ?_⟩
  · intro s selfId hdom
    cases hl : alookup s.id_to_user selfId with
    | none => simpa [ctrl_c, hl] using hdom
    | some e =>
      rw [DomEq_iff] at hdom ⊢
      intro j
      simp only [ctrl_c, hl]
      rw [alookup_aremove, alookup_aremove]
      by_cases hj : j = selfId
      · simp [hj]
      · simp only [if_neg hj]
        exact hdom j
  · intro s na closeOk s2 err h hdom
    cases na with
    | error e0 =>
      simp only [reload, Option.some.injEq, Prod.mk.injEq] at h
      rw [← h.1]
      exact hdom
    | ok ents =>
      obtain ⟨kti2, cl2, itu2, hstr, hcase⟩ :=
        reload_ok_inversion s ents closeOk s2 err h
      have hdom2 := straysLoop_dom closeOk _ _ _ _ _ _ _ _ hstr
        ((DomEq_iff s).mp hdom)
      rcases hcase with ⟨_, rfl⟩ | ⟨_, rfl⟩ <;>
        exact (DomEq_iff _).mpr hdom2
  · intro s lk callerId closeOk s2 err h
    simp only [ban] at h
    split at h
    · simp only [Option.some.injEq, Prod.mk.injEq] at h
      rw [← h.1]
    · split at h
      · simp at h
      · split at h
        · simp only [Option.some.injEq, Prod.mk.injEq] at h
          rw [← h.1]
        · split at h
          · simp only [Option.some.injEq, Prod.mk.injEq] at h
            rw [← h.1]
          · simp only [Option.some.injEq, Prod.mk.injEq] at h
            rw [← h.1]

/-- C1 amended witness: Ctrl-C and a concrete successful reload keep
the domain equality; the concrete ban left `id_to_user` untouched. -/
theorem dom_eq_ops_witness :
    DomEq (ctrl_c stateTwoSessions 0) ∧
    DomEq stateTwoSessions ∧
    stateTwoBanned.id_to_user = stateTwo.id_to_user :=
  ⟨dom_eq_ops.1 stateTwoSessions 0 (by decide),
    dom_eq_ops.2.1 stateTwoSessions (.ok [entA]) (fun _ => true)
      stateTwoSessions none (by decide) (by decide),
    dom_eq_ops.2.2 stateTwo (EntityLookup.Name "bob") 0 (fun _ => true)
      stateTwoBanned none (by decide)⟩

/-- The partial state left when reloading `stateTwoSessions` against
an empty authfile with the close of id 1 failing: id 0 is already
evicted, the `key_data_to_id` entry survives, and the authorization
maps are untouched. -/
def stateTwoSessionsPartial : ServerState :=
  { keychain := [entA]
    key_data_pool := [1]
    key_data_to_user := [(1, entA)]
    key_data_to_id := [(1, [0, 1])]
    id_to_user := [(1, entA)]
    clients := [(1, clientOn 11)] }

/-- C4 counterexample: a `/reload` that fails with
`ClientDisconnectFailed` mid-eviction does NOT leave every piece of
state as it was — session 0 has already been removed from `clients`
and `id_to_user` when the close of session 1 fails. -/
theorem reload_partial_failure_cex :
    reload stateTwoSessions (.ok []) (fun id => id == 0) =
      some (stateTwoSessionsPartial, some (Error.ClientDisconnectFailed 1)) ∧
    stateTwoSessionsPartial.clients ≠ stateTwoSessions.clients := by
  decide

/-- C4 amended: a `/reload` failing at file-read/parse time leaves the
whole state unchanged, and any failing `/reload` (including a
`ClientDisconnectFailed` during eviction) leaves `entities`
(keychain), `key_pool` and `key_to_entity` unchanged — but a
mid-eviction failure keeps the evictions already performed on
`clients`, `id_to_user` (and any already-dropped `key_data_to_id`
entries), so those maps may differ from the pre-command state. -/
theorem reload_error_keeps_auth_state (s : ServerState)
    (na : Except Error (List Entity)) (closeOk : Nat → Bool)
    (s2 : ServerState) (err : Error)
    (h : reload s na closeOk = some (s2, some err)) :
    s2.keychain = s.keychain ∧
    s2.key_data_pool = s.key_data_pool ∧
    s2.key_data_to_user = s.key_data_to_user ∧
    (∀ e0 : Error, na = .error e0 → s2 = s) := by
  cases na with
  | error e0 =>
    simp only [reload, Option.some.injEq, Prod.mk.injEq] at h
    rw [← h.1]
    exact ⟨rfl, rfl, rfl, fun _ _ => rfl⟩
  | ok ents =>
    obtain ⟨kti2, cl2, itu2, hstr, hcase⟩ :=
      reload_ok_inversion s ents closeOk s2 (some err) h
    rcases hcase with ⟨_, rfl⟩ | ⟨hnone, _⟩
    · exact ⟨rfl, rfl, rfl, fun e0 h0 => Except.noConfusion h0⟩
    · exact Option.noConfusion hnone

/-- C4 amended witness: the concrete mid-eviction failure keeps the
authorization maps; a concrete parse failure keeps the whole state. -/
theorem reload_error_keeps_auth_state_witness :
    (stateTwoSessionsPartial.keychain = stateTwoSessions.keychain ∧
      stateTwoSessionsPartial.key_data_pool = stateTwoSessions.key_data_pool ∧
      stateTwoSessionsPartial.key_data_to_user =
        stateTwoSessions.key_data_to_user ∧
      (∀ e0 : Error, (Except.ok [] : Except Error (List Entity)) = .error e0 →
        stateTwoSessionsPartial = stateTwoSessions)) ∧
    (stateTwo.keychain = stateTwo.keychain ∧
      stateTwo.key_data_pool = stateTwo.key_data_pool ∧
      stateTwo.key_data_to_user = stateTwo.key_data_to_user ∧
      (∀ e0 : Error,
        (Except.error Error.FileNotReadable : Except Error (List Entity)) =
          .error e0 → stateTwo = stateTwo)) :=
  ⟨reload_error_keeps_auth_state stateTwoSessions (.ok []) (fun id => id == 0)
      stateTwoSessionsPartial (Error.ClientDisconnectFailed 1) (by decide),
    reload_error_keeps_auth_state stateTwo (.error Error.FileNotReadable)
      (fun _ => true) stateTwo Error.FileNotReadable (by decide)⟩

theorem alookup_none_of_subset {α : Type} {l1 l2 : List (Nat × α)} {k : Nat}
    (hsub : ∀ p ∈ l2, p ∈ l1) (h : alookup l1 k = none) :
    alookup l2 k = none := by
  rw [alookup_eq_none] at h ⊢
  exact fun p hp => h p (hsub p hp)

theorem evictLoop_subset (closeOk : Nat → Bool) :
    ∀ (ids : List Nat) (cl : List (Nat × Client)) (itu : List (Nat × Entity))
      (cl2 : List (Nat × Client)) (itu2 : List (Nat × Entity))
      (err : Option Error),
      evictLoop closeOk ids cl itu = some (cl2, itu2, err) →
      (∀ p ∈ cl2, p ∈ cl) ∧ (∀ q ∈ itu2, q ∈ itu) := by
  intro ids
  induction ids with
  | nil =>
    intro cl itu cl2 itu2 err h
    simp only [evictLoop, Option.some.injEq, Prod.mk.injEq] at h
    obtain ⟨h1, h2, _⟩ := h
    subst h1; subst h2
    exact ⟨fun p hp => hp, fun q hq => hq⟩
  | cons id rest ih =>
    intro cl itu cl2 itu2 err h
    simp only [evictLoop] at h
    split at h
    · simp at h
    · split at h
      · obtain ⟨h1, h2⟩ := ih _ _ _ _ _ h
        exact ⟨fun p hp => ((mem_aremove _ _ _).mp (h1 p hp)).1,
          fun q hq => ((mem_aremove _ _ _).mp (h2 q hq)).1⟩
      · simp only [Option.some.injEq, Prod.mk.injEq] at h
        obtain ⟨h1, h2, _⟩ := h
        subst h1; subst h2
        exact ⟨fun p hp => hp, fun q hq => hq⟩

theorem straysLoop_subset (closeOk : Nat → Bool) :
    ∀ (strays : List Nat) (kti : List (Nat × List Nat))
      (cl : List (Nat × Client)) (itu : List (Nat × Entity))
      (kti2 : List (Nat × List Nat)) (cl2 : List (Nat × Client))
      (itu2 : List (Nat × Entity)) (err : Option Error),
      straysLoop closeOk strays kti cl itu = some (kti2, cl2, itu2, err) →
      (∀ p ∈ kti2, p ∈ kti) ∧ (∀ p ∈ cl2, p ∈ cl) ∧ (∀ q ∈ itu2, q ∈ itu) := by
  intro strays
  induction strays with
  | nil =>
    intro kti cl itu kti2 cl2 itu2 err h
    simp only [straysLoop, Option.some.injEq, Prod.mk.injEq] at h
    obtain ⟨h1, h2, h3, _⟩ := h
    subst h1; subst h2; subst h3
    exact ⟨fun p hp => hp, fun p hp => hp, fun q hq => hq⟩
  | cons stray rest ih =>
    intro kti cl itu kti2 cl2 itu2 err h
    simp only [straysLoop] at h
    split at h
    · exact ih _ _ _ _ _ _ _ h
    · rename_i ids hk
      split at h
      · simp at h
      · rename_i cl3 itu3 e3 hev
        simp only [Option.some.injEq, Prod.mk.injEq] at h
        obtain ⟨h1, h2, h3, _⟩ := h
        subst h1; subst h2; subst h3
        obtain ⟨hc, hi⟩ := evictLoop_subset closeOk ids cl itu cl3 itu3 _ hev
        exact ⟨fun p hp => hp, hc, hi⟩
      · rename_i cl3 itu3 hev
        obtain ⟨hc, hi⟩ := evictLoop_subset closeOk ids cl itu cl3 itu3 _ hev
        obtain ⟨h1, h2, h3⟩ := ih _ _ _ _ _ _ _ h
        exact ⟨fun p hp => ((mem_aremove _ _ _).mp (h1 p hp)).1,
          fun p hp => hc p (h2 p hp), fun q hq => hi q (h3 q hq)⟩

theorem evictLoop_allOk :
    ∀ (ids : List Nat) (cl : List (Nat × Client)) (itu : List (Nat × Entity))
      (cl2 : List (Nat × Client)) (itu2 : List (Nat × Entity))
      (err : Option Error),
      evictLoop (fun _ => true) ids cl itu = some (cl2, itu2, err) →
      err = none := by
  intro ids
  induction ids with
  | nil =>
    intro cl itu cl2 itu2 err h
    simp only [evictLoop, Option.some.injEq, Prod.mk.injEq] at h
    exact h.2.2.symm
  | cons id rest ih =>
    intro cl itu cl2 itu2 err h
    simp only [evictLoop] at h
    split at h
    · simp at h
    · split at h
      · exact ih _ _ _ _ _ h
      · rename_i hnot
        simp at hnot

theorem straysLoop_allOk :
    ∀ (strays : List Nat) (kti : List (Nat × List Nat))
      (cl : List (Nat × Client)) (itu : List (Nat × Entity))
      (kti2 : List (Nat × List Nat)) (cl2 : List (Nat × Client))
      (itu2 : List (Nat × Entity)) (err : Option Error),
      straysLoop (fun _ => true) strays kti cl itu =
        some (kti2, cl2, itu2, err) →
      err = none := by
  intro strays
  induction strays with
  | nil =>
    intro kti cl itu kti2 cl2 itu2 err h
    simp only [straysLoop, Option.some.injEq, Prod.mk.injEq] at h
    exact h.2.2.2.symm
  | cons stray rest ih =>
    intro kti cl itu kti2 cl2 itu2 err h
    simp only [straysLoop] at h
    split at h
    · exact ih _ _ _ _ _ _ _ h
    · rename_i ids hk
      split at h
      · simp at h
      · rename_i cl3 itu3 e3 hev
        exact absurd (evictLoop_allOk ids _ _ _ _ _ hev) (by simp)
      · exact ih _ _ _ _ _ _ _ h

theorem evictLoop_evicts (closeOk : Nat → Bool) :
    ∀ (ids : List Nat) (cl : List (Nat × Client)) (itu : List (Nat × Entity))
      (cl2 : List (Nat × Client)) (itu2 : List (Nat × Entity)),
      evictLoop closeOk ids cl itu = some (cl2, itu2, none) →
      ∀ id ∈ ids, alookup cl2 id = none := by
  intro ids
  induction ids with
  | nil =>
    intro cl itu cl2 itu2 h id hid
    simp at hid
  | cons id0 rest ih =>
    intro cl itu cl2 itu2 h id hid
    simp only [evictLoop] at h
    split at h
    · simp at h
    · split at h
      · rcases List.mem_cons.mp hid with rfl | hid2
        · have hsub := (evictLoop_subset closeOk rest _ _ _ _ _ h).1
          exact alookup_none_of_subset hsub
            (by rw [alookup_aremove]; simp)
        · exact ih _ _ _ _ h id hid2
      · simp at h

theorem straysLoop_evicts (closeOk : Nat → Bool) :
    ∀ (strays : List Nat) (kti : List (Nat × List Nat))
      (cl : List (Nat × Client)) (itu : List (Nat × Entity))
      (kti2 : List (Nat × List Nat)) (cl2 : List (Nat × Client))
      (itu2 : List (Nat × Entity)),
      straysLoop closeOk strays kti cl itu = some (kti2, cl2, itu2, none) →
      ∀ k ∈ strays, ∀ ids, alookup kti k = some ids →
        ∀ id ∈ ids, alookup cl2 id = none := by
  intro strays
  induction strays with
  | nil =>
    intro kti cl itu kti2 cl2 itu2 h k hk
    simp at hk
  | cons stray rest ih =>
    intro kti cl itu kti2 cl2 itu2 h k hkmem ids hkl id hid
    simp only [straysLoop] at h
    by_cases hks : k = stray
    · subst hks
      split at h
      · rename_i hk0
        rw [hkl] at hk0
        exact Option.noConfusion hk0
      · rename_i ids0 hk0
        rw [hkl] at hk0
        obtain rfl : ids = ids0 := Option.some.inj hk0
        split at h
        · simp at h
        · rename_i cl3 itu3 e3 hev
          simp only [Option.some.injEq, Prod.mk.injEq] at h
          exact absurd h.2.2.2 (by simp)
        · rename_i cl3 itu3 hev
          have h0 : alookup cl3 id = none :=
            evictLoop_evicts closeOk ids cl itu cl3 itu3 hev id hid
          exact alookup_none_of_subset
            (straysLoop_subset closeOk rest _ _ _ _ _ _ _ h).2.1 h0
    · have hkrest : k ∈ rest := by
        rcases List.mem_cons.mp hkmem with h1 | h1
        · exact absurd h1 hks
        · exact h1
      split at h
      · exact ih _ _ _ _ _ _ h k hkrest ids hkl id hid
      · rename_i ids0 hk0
        split at h
        · simp at h
        · rename_i cl3 itu3 e3 hev
          simp only [Option.some.injEq, Prod.mk.injEq] at h
          exact absurd h.2.2.2 (by simp)
        · rename_i cl3 itu3 hev
          refine ih _ _ _ _ _ _ h k hkrest ids ?_ id hid
          rw [alookup_aremove, if_neg hks]
          exact hkl

/-- C5 amended: after a `/reload` that succeeds with freshly parsed
entities `ents`, the in-memory pool equals the file's pool, and every
session that was LISTED in `key_data_to_id` under a stray key has been
evicted from `clients`; a live session whose id is absent from
`key_data_to_id` (possible after a same-key sibling's Ctrl-C removed
the whole entry) survives the reload even though its key is not in the
new pool. -/
theorem reload_success_spec (s : ServerState) (ents : List Entity)
    (closeOk : Nat → Bool) (s2 : ServerState)
    (h : reload s (.ok ents) closeOk = some (s2, none)) :
    s2.key_data_pool = build_key_data_pool ents ∧
    (∀ k, k ∈ s.key_data_pool → k ∉ build_key_data_pool ents →
      ∀ ids, alookup s.key_data_to_id k = some ids →
        ∀ id ∈ ids, alookup s2.clients id = none) := by
  obtain ⟨kti2, cl2, itu2, hstr, hcase⟩ :=
    reload_ok_inversion s ents closeOk s2 none h
  rcases hcase with ⟨⟨e, he⟩, _⟩ | ⟨_, rfl⟩
  · exact Option.noConfusion he
  · refine ⟨rfl, ?_⟩
    intro k hk1 hk2 ids hkl id hid
    have hkst : k ∈ s.key_data_pool.filter
        (fun k => decide (k ∉ build_key_data_pool ents)) :=
      List.mem_filter.mpr ⟨hk1, by simpa using hk2⟩
    exact straysLoop_evicts closeOk _ _ _ _ _ _ _ hstr k hkst ids hkl id hid

/-- Client of the lone surviving session in the reachability chain. -/
def cAlice (ch : Nat) : Client :=
  { channel := ch, title := "[alice admin]", statusline := "" }

/-- State after session 0 authenticated on alice's key. -/
def rc1 : ServerState :=
  { keychain := [entA]
    key_data_pool := [1]
    key_data_to_user := [(1, entA)]
    key_data_to_id := [(1, [0])]
    id_to_user := [(0, entA)]
    clients := [] }

/-- State after session 0 opened its channel. -/
def rc2 : ServerState := { rc1 with clients := [(0, cAlice 10)] }

/-- State after session 1 also authenticated on alice's key. -/
def rc3 : ServerState :=
  { rc2 with
      id_to_user := [(1, entA), (0, entA)]
      key_data_to_id := [(1, [0, 1])] }

/-- State after session 1 opened its channel. -/
def rc4 : ServerState :=
  { rc3 with clients := [(1, cAlice 11), (0, cAlice 10)] }

/-- State after session 0 sent Ctrl-C: the whole `key_data_to_id`
entry for key 1 is gone while session 1 lives on. -/
def rc5 : ServerState :=
  { keychain := [entA]
    key_data_pool := [1]
    key_data_to_user := [(1, entA)]
    key_data_to_id := []
    id_to_user := [(1, entA)]
    clients := [(1, cAlice 11)] }

/-- State after reloading `rc5` against an empty authfile. -/
def rc6 : ServerState :=
  { keychain := []
    key_data_pool := []
    key_data_to_user := []
    key_data_to_id := []
    id_to_user := [(1, entA)]
    clients := [(1, cAlice 11)] }

theorem rc5_reachable : Reachable rc5 := by
  have r0 : Reachable (initState [entA]) := Reachable.init [entA]
  have r1 : Reachable rc1 := by
    have h := Reachable.step r0 (Step.auth (initState [entA]) 0 1 (by decide) (by decide))
    exact (show (auth_publickey (initState [entA]) 0 1).1 = rc1 by decide) ▸ h
  have r2 : Reachable rc2 :=
    Reachable.step r1 (Step.chanOpen rc1 0 10 rc2 (by decide))
  have r3 : Reachable rc3 := by
    have h := Reachable.step r2 (Step.auth rc2 1 1 (by decide) (by decide))
    exact (show (auth_publickey rc2 1 1).1 = rc3 by decide) ▸ h
  have r4 : Reachable rc4 :=
    Reachable.step r3 (Step.chanOpen rc3 1 11 rc4 (by decide))
  have h := Reachable.step r4 (Step.quit rc4 0)
  exact (show ctrl_c rc4 0 = rc5 by decide) ▸ h

/-- C5 counterexample: a reachable state (two sessions on alice's key,
then one Ctrl-C) reloads successfully against an empty authfile, yet
session 1 remains in `clients` while its entity's key material is not
in the new (empty) `key_pool` — the claimed total eviction of sessions
whose key left the file does not hold. -/
theorem reload_keeps_stray_session_cex :
    Reachable rc5 ∧
    reload rc5 (.ok []) (fun _ => true) = some (rc6, none) ∧
    (alookup rc6.clients 1).isSome = true ∧
    alookup rc6.id_to_user 1 = some entA ∧
    entA.key ∉ rc6.key_data_pool := by
  exact ⟨rc5_reachable, by decide, by decide, by decide, by decide⟩

/-- The state `/reload` with a file holding only alice produces from
`stateTwo`: bob's listed session 1 is evicted everywhere. -/
def stateTwoReloaded : ServerState :=
  { keychain := [entA]
    key_data_pool := [1]
    key_data_to_user := [(1, entA)]
    key_data_to_id := [(1, [0])]
    id_to_user := [(0, entA)]
    clients := [(0, clientOn 10)] }

/-- C5 amended witness: a concrete reload of `stateTwo` against a file
holding only alice evicts bob's listed session and sets the pool. -/
theorem reload_success_spec_witness :
    reload stateTwo (.ok [entA]) (fun _ => true) =
      some (stateTwoReloaded, none) ∧
    stateTwoReloaded.key_data_pool = build_key_data_pool [entA] ∧
    alookup stateTwoReloaded.clients 1 = none :=
  ⟨by decide,
    (reload_success_spec stateTwo [entA] (fun _ => true) stateTwoReloaded
      (by decide)).1,
    (reload_success_spec stateTwo [entA] (fun _ => true) stateTwoReloaded
      (by decide)).2 2 (by decide) (by decide) [1] (by decide) 1 (by decide)⟩

theorem straysLoop_no_stray (closeOk : Nat → Bool) :
    ∀ (strays : List Nat) (kti : List (Nat × List Nat))
      (cl : List (Nat × Client)) (itu : List (Nat × Entity))
      (kti2 : List (Nat × List Nat)) (cl2 : List (Nat × Client))
      (itu2 : List (Nat × Entity)),
      straysLoop closeOk strays kti cl itu = some (kti2, cl2, itu2, none) →
      ∀ k ∈ strays, ∀ p ∈ kti2, p.1 ≠ k := by
  intro strays
  induction strays with
  | nil =>
    intro kti cl itu kti2 cl2 itu2 h k hk
    simp at hk
  | cons stray rest ih =>
    intro kti cl itu kti2 cl2 itu2 h k hkmem p hp
    simp only [straysLoop] at h
    by_cases hks : k = stray
    · subst hks
      split at h
      · rename_i hk0
        have hpin := (straysLoop_subset closeOk rest _ _ _ _ _ _ _ h).1 p hp
        exact (alookup_eq_none _ _).mp hk0 p hpin
      · rename_i ids0 hk0
        split at h
        · simp at h
        · rename_i cl3 itu3 e3 hev
          simp only [Option.some.injEq, Prod.mk.injEq] at h
          exact absurd h.2.2.2 (by simp)
        · rename_i cl3 itu3 hev
          have hpin := (straysLoop_subset closeOk rest _ _ _ _ _ _ _ h).1 p hp
          exact ((mem_aremove _ _ _).mp hpin).2
    · have hkrest : k ∈ rest := by
        rcases List.mem_cons.mp hkmem with h1 | h1
        · exact absurd h1 hks
        · exact h1
      split at h
      · exact ih _ _ _ _ _ _ h k hkrest p hp
      · rename_i ids0 hk0
        split at h
        · simp at h
        · rename_i cl3 itu3 e3 hev
          simp only [Option.some.injEq, Prod.mk.injEq] at h
          exact absurd h.2.2.2 (by simp)
        · rename_i cl3 itu3 hev
          exact ih _ _ _ _ _ _ h k hkrest p hp

theorem evictLoop_itu_lookup (closeOk : Nat → Bool) :
    ∀ (ids : List Nat) (cl : List (Nat × Client)) (itu : List (Nat × Entity))
      (cl2 : List (Nat × Client)) (itu2 : List (Nat × Entity))
      (err : Option Error),
      evictLoop closeOk ids cl itu = some (cl2, itu2, err) →
      ∀ j, alookup itu2 j = alookup itu j ∨
        (alookup itu2 j = none ∧ j ∈ ids) := by
  intro ids
  induction ids with
  | nil =>
    intro cl itu cl2 itu2 err h j
    simp only [evictLoop, Option.some.injEq, Prod.mk.injEq] at h
    obtain ⟨_, h2, _⟩ := h
    subst h2
    exact Or.inl rfl
  | cons id0 rest ih =>
    intro cl itu cl2 itu2 err h j
    simp only [evictLoop] at h
    split at h
    · simp at h
    · split at h
      · rcases ih _ _ _ _ _ h j with hsame | ⟨hnone, hj⟩
        · by_cases hj0 : j = id0
          · subst hj0
            refine Or.inr ⟨?_, List.mem_cons_self _ _⟩
            rw [hsame, alookup_aremove]
            simp
          · refine Or.inl ?_
            rw [hsame, alookup_aremove, if_neg hj0]
        · exact Or.inr ⟨hnone, List.mem_cons_of_mem _ hj⟩
      · simp only [Option.some.injEq, Prod.mk.injEq] at h
        obtain ⟨_, h2, _⟩ := h
        subst h2
        exact Or.inl rfl

theorem straysLoop_itu_lookup (closeOk : Nat → Bool) :
    ∀ (strays : List Nat) (kti : List (Nat × List Nat))
      (cl : List (Nat × Client)) (itu : List (Nat × Entity))
      (kti2 : List (Nat × List Nat)) (cl2 : List (Nat × Client))
      (itu2 : List (Nat × Entity)) (err : Option Error),
      straysLoop closeOk strays kti cl itu = some (kti2, cl2, itu2, err) →
      ∀ j, alookup itu2 j = alookup itu j ∨
        (alookup itu2 j = none ∧ ∃ k ids, alookup kti k = some ids ∧
          j ∈ ids ∧ k ∈ strays) := by
  intro strays
  induction strays with
  | nil =>
    intro kti cl itu kti2 cl2 itu2 err h j
    simp only [straysLoop, Option.some.injEq, Prod.mk.injEq] at h
    obtain ⟨_, _, h3, _⟩ := h
    subst h3
    exact Or.inl rfl
  | cons stray rest ih =>
    intro kti cl itu kti2 cl2 itu2 err h j
    simp only [straysLoop] at h
    split at h
    · rcases ih _ _ _ _ _ _ _ h j with hsame | ⟨hnone, k, ids, hkl, hj, hkr⟩
      · exact Or.inl hsame
      · exact Or.inr ⟨hnone, k, ids, hkl, hj, List.mem_cons_of_mem _ hkr⟩
    · rename_i ids0 hk0
      split at h
      · simp at h
      · rename_i cl3 itu3 e3 hev
        simp only [Option.some.injEq, Prod.mk.injEq] at h
        obtain ⟨_, _, h3, _⟩ := h
        subst h3
        rcases evictLoop_itu_lookup closeOk ids0 _ _ _ _ _ hev j with
          hsame | ⟨hnone, hj⟩
        · exact Or.inl hsame
        · exact Or.inr ⟨hnone, stray, ids0, hk0, hj, List.mem_cons_self _ _⟩
      · rename_i cl3 itu3 hev
        rcases ih _ _ _ _ _ _ _ h j with hsame | ⟨hnone, k, ids, hkl, hj, hkr⟩
        · rcases evictLoop_itu_lookup closeOk ids0 _ _ _ _ _ hev j with
            hsame2 | ⟨hnone2, hj2⟩
          · exact Or.inl (hsame.trans hsame2)
          · exact Or.inr ⟨hsame.trans hnone2, stray, ids0, hk0, hj2,
              List.mem_cons_self _ _⟩
        · rw [alookup_aremove] at hkl
          by_cases hkstray : k = stray
          · rw [if_pos hkstray] at hkl
            exact Option.noConfusion hkl
          · rw [if_neg hkstray] at hkl
            exact Or.inr ⟨hnone, k, ids, hkl, hj, List.mem_cons_of_mem _ hkr⟩

theorem step_preserves (s s2 : ServerState) (hstep : Step s s2)
    (hk : KtuConsistent s) (hp : InvWeak s) :
    KtuConsistent s2 ∧ InvWeak s2 := by
  cases hstep with
  | auth selfId key fresh_itu fresh_kti =>
    cases hl : alookup s.key_data_to_user key with
    | none =>
      have hs : (auth_publickey s selfId key).1 = s := by
        simp [auth_publickey, hl]
      rw [hs]
      exact ⟨hk, hp⟩
    | some e =>
      have hs : (auth_publickey s selfId key).1 =
          { s with
              id_to_user := ainsert s.id_to_user selfId e
              key_data_to_id := ainsert s.key_data_to_id key
                (((alookup s.key_data_to_id key).getD []) ++ [selfId]) } := by
        simp [auth_publickey, hl]
      rw [hs]
      constructor
      · intro p hpm
        exact hk p hpm
      · intro p hpm
        rcases List.mem_cons.mp hpm with rfl | hpm2
        · refine ⟨(hk _ (alookup_mem hl)).2, fun id hid => ?_⟩
          rcases List.mem_append.mp hid with hid1 | hid2
          · cases hold : alookup s.key_data_to_id key with
            | none => rw [hold] at hid1; simp at hid1
            | some old =>
              rw [hold] at hid1
              simp only [Option.getD] at hid1
              have hne : id ≠ selfId := fun hEq =>
                fresh_kti _ (alookup_mem hold) (hEq ▸ hid1)
              show optKeyMatches
                (alookup (ainsert s.id_to_user selfId e) id) key
              rw [alookup_ainsert, if_neg hne]
              exact (hp _ (alookup_mem hold)).2 id hid1
          · have hid3 : id = selfId := by simpa using hid2
            subst hid3
            show optKeyMatches
              (alookup (ainsert s.id_to_user id e) id) key
            rw [alookup_ainsert, if_pos rfl]
            exact (hk _ (alookup_mem hl)).1
        · obtain ⟨hpin, hpne⟩ := (mem_aremove _ _ _).mp hpm2
          obtain ⟨hpool, hfit⟩ := hp p hpin
          refine ⟨hpool, fun id hid => ?_⟩
          have hne : id ≠ selfId := fun hEq => fresh_kti p hpin (hEq ▸ hid)
          show optKeyMatches (alookup (ainsert s.id_to_user selfId e) id) p.1
          rw [alookup_ainsert, if_neg hne]
          exact hfit id hid
  | chanOpen selfId chan s2 h =>
    simp only [channel_open_session] at h
    cases hl : alookup s.id_to_user selfId with
    | none => rw [hl] at h; exact Option.noConfusion h
    | some e =>
      rw [hl] at h
      have h2 := Option.some.inj h
      rw [← h2]
      exact ⟨hk, hp⟩
  | quit selfId =>
    cases hl : alookup s.id_to_user selfId with
    | none =>
      have hs : ctrl_c s selfId = s := by simp [ctrl_c, hl]
      rw [hs]
      exact ⟨hk, hp⟩
    | some e =>
      have hs : ctrl_c s selfId =
          { s with
              key_data_to_id := aremove s.key_data_to_id e.key
              id_to_user := aremove s.id_to_user selfId
              clients := aremove s.clients selfId } := by
        simp [ctrl_c, hl]
      rw [hs]
      refine ⟨fun p hpm => hk p hpm, fun p hpm => ?_⟩
      obtain ⟨hpin, hpne⟩ := (mem_aremove _ _ _).mp hpm
      obtain ⟨hpool, hfit⟩ := hp p hpin
      refine ⟨hpool, fun id hid => ?_⟩
      show optKeyMatches (alookup (aremove s.id_to_user selfId) id) p.1
      rw [alookup_aremove]
      by_cases hj : id = selfId
      · rw [if_pos hj]
        trivial
      · rw [if_neg hj]
        exact hfit id hid
  | banStep lk callerId closeOk s2 err h =>
    simp only [ban] at h
    split at h
    · simp only [Option.some.injEq, Prod.mk.injEq] at h
      rw [← h.1]
      exact ⟨hk, hp⟩
    · rename_i e hm
      split at h
      · exact Option.noConfusion h
      · rename_i caller hcall
        split at h
        · simp only [Option.some.injEq, Prod.mk.injEq] at h
          rw [← h.1]
          exact ⟨hk, hp⟩
        · split at h
          · rename_i hknone
            simp only [Option.some.injEq, Prod.mk.injEq] at h
            rw [← h.1]
            constructor
            · intro p hpm
              obtain ⟨hpin, hpne⟩ := (mem_aremove _ _ _).mp hpm
              exact ⟨(hk p hpin).1,
                (mem_premove _ _ _).mpr ⟨(hk p hpin).2, hpne⟩⟩
            · intro p hpm
              obtain ⟨hpool, hfit⟩ := hp p hpm
              have hpne : p.1 ≠ e.key :=
                (alookup_eq_none _ _).mp hknone p hpm
              exact ⟨(mem_premove _ _ _).mpr ⟨hpool, hpne⟩, hfit⟩
          · rename_i ids hksome
            simp only [Option.some.injEq, Prod.mk.injEq] at h
            rw [← h.1]
            constructor
            · intro p hpm
              obtain ⟨hpin, hpne⟩ := (mem_aremove _ _ _).mp hpm
              exact ⟨(hk p hpin).1,
                (mem_premove _ _ _).mpr ⟨(hk p hpin).2, hpne⟩⟩
            · intro p hpm
              obtain ⟨hpin, hpne⟩ := (mem_aremove _ _ _).mp hpm
              obtain ⟨hpool, hfit⟩ := hp p hpin
              exact ⟨(mem_premove _ _ _).mpr ⟨hpool, hpne⟩, hfit⟩
  | reloadStep ents closeOk s2 err h =>
    obtain ⟨kti2, cl2, itu2, hstr, hcase⟩ :=
      reload_ok_inversion s ents closeOk s2 err h
    rcases hcase with ⟨⟨e0, he0⟩, rfl⟩ | ⟨herr, rfl⟩
    · constructor
      · intro p hpm
        exact hk p hpm
      · intro p hpm
        have hpin : p ∈ s.key_data_to_id :=
          (straysLoop_subset _ _ _ _ _ _ _ _ _ hstr).1 p hpm
        obtain ⟨hpool, hfit⟩ := hp p hpin
        refine ⟨hpool, fun id hid => ?_⟩
        rcases straysLoop_itu_lookup _ _ _ _ _ _ _ _ _ hstr id with
          hsame | ⟨hnone, _⟩
        · show optKeyMatches (alookup itu2 id) p.1
          rw [hsame]
          exact hfit id hid
        · show optKeyMatches (alookup itu2 id) p.1
          rw [hnone]
          trivial
    · subst herr
      constructor
      · intro p hpm
        obtain ⟨e2, he2, rfl⟩ := mem_buildKeyToUser ents p hpm
        exact ⟨rfl, (mem_build_key_data_pool ents _).mpr ⟨e2, he2, rfl⟩⟩
      · intro p hpm
        have hpin : p ∈ s.key_data_to_id :=
          (straysLoop_subset _ _ _ _ _ _ _ _ _ hstr).1 p hpm
        obtain ⟨hpool, hfit⟩ := hp p hpin
        have hnotstray : p.1 ∉ s.key_data_pool.filter
            (fun k => decide (k ∉ build_key_data_pool ents)) := by
          intro hstray
          exact straysLoop_no_stray _ _ _ _ _ _ _ _ hstr p.1 hstray p hpm rfl
        have hnew : p.1 ∈ build_key_data_pool ents := by
          by_contra hno
          exact hnotstray (List.mem_filter.mpr ⟨hpool, by simpa using hno⟩)
        refine ⟨hnew, fun id hid => ?_⟩
        rcases straysLoop_itu_lookup _ _ _ _ _ _ _ _ _ hstr id with
          hsame | ⟨hnone, _⟩
        · show optKeyMatches (alookup itu2 id) p.1
          rw [hsame]
          exact hfit id hid
        · show optKeyMatches (alookup itu2 id) p.1
          rw [hnone]
          trivial

theorem rc1_reachable : Reachable rc1 := by
  have h := Reachable.step (Reachable.init [entA])
    (Step.auth (initState [entA]) 0 1 (by decide) (by decide))
  exact (show (auth_publickey (initState [entA]) 0 1).1 = rc1 by decide) ▸ h

theorem rc4_reachable : Reachable rc4 := by
  have r2 : Reachable rc2 :=
    Reachable.step rc1_reachable (Step.chanOpen rc1 0 10 rc2 (by decide))
  have r3 : Reachable rc3 := by
    have h := Reachable.step r2 (Step.auth rc2 1 1 (by decide) (by decide))
    exact (show (auth_publickey rc2 1 1).1 = rc3 by decide) ▸ h
  exact Reachable.step r3 (Step.chanOpen rc3 1 11 rc4 (by decide))

/-- C8 counterexample: the state between a successful `auth_publickey`
for connection 0 and its `channel_open_session` is reachable, and
there the `key_data_to_id` entry for key 1 lists id 0 while `clients`
is still empty — the `ids ⊆ dom(clients)` conjunct of the claimed
invariant fails in exactly the window the claim singles out. -/
theorem auth_window_breaks_invariant_cex :
    Reachable rc1 ∧ ¬ InvC8 rc1 :=
  ⟨rc1_reachable, by decide⟩

/-- State left by reloading `rc4` (two sessions on key 1) against an
empty authfile when the close of session 1 fails: the eviction already
removed id 0 from `id_to_user` and `clients`, the `key_data_to_id`
entry `(1, [0, 1])` survives, and the authorization maps are kept. -/
def rcFail : ServerState :=
  { keychain := [entA]
    key_data_pool := [1]
    key_data_to_user := [(1, entA)]
    key_data_to_id := [(1, [0, 1])]
    id_to_user := [(1, entA)]
    clients := [(1, cAlice 11)] }

/-- C8 amended: at every reachable state — states reached through ban
or reload runs whose channel closes fail included — every
`key_data_to_id` entry `(k, ids)` has `k` in `key_pool`, and every
listed id that is still bound in `conn_to_entity` is bound to an
entity whose key material is `k` (together with the auxiliary
key-index consistency).  The claim's stronger conjuncts fail: `ids ⊆
dom(clients)` fails between a connection's `auth_publickey` and its
`channel_open_session`, and the unconditional `conn_to_entity` binding
fails after an error-interrupted reload has evicted some ids of an
entry whose own removal never ran. -/
theorem key_to_conns_weak_invariant (s : ServerState)
    (h : Reachable s) : KtuConsistent s ∧ InvWeak s := by
  induction h with
  | init ents =>
    constructor
    · intro p hpm
      obtain ⟨e2, he2, rfl⟩ := mem_buildKeyToUser ents p hpm
      exact ⟨rfl, (mem_build_key_data_pool ents _).mpr ⟨e2, he2, rfl⟩⟩
    · intro p hpm
      simp [initState] at hpm
  | step hr hstep ih => exact step_preserves _ _ hstep ih.1 ih.2

/-- C8 amended witness: the invariant holds at the concrete state
reached through a reload whose channel close FAILED mid-eviction
(`rcFail`), the kind of state the strong invariant does not cover. -/
theorem key_to_conns_weak_invariant_witness :
    KtuConsistent rcFail ∧ InvWeak rcFail :=
  key_to_conns_weak_invariant rcFail
    (Reachable.step rc4_reachable
      (Step.reloadStep rc4 [] (fun id => id == 0) rcFail
        (some (Error.ClientDisconnectFailed 1)) (by decide)))
